import Mathlib

/-!
Verification of the BTPC2 consensus/ledger core against its specification.

Each Rust module relevant to the claims is shallowly embedded:
pure functions become Lean functions, stateful methods become explicit
state-passing functions, machine integers become `Nat` with explicit
`% 2^w` where overflow matters, and fallible code returns `Except`.
`f64` arithmetic on values that stay well inside the exactly
representable range is modelled over `ℚ`, with the `as u64`
float-to-int cast modelled as floor saturated at `2^64 - 1`.
-/

set_option maxHeartbeats 1000000

namespace BTPC2

/-- u64::MAX, the saturation bound of Rust u64 arithmetic. -/
def U64_MAX : ℕ := 2 ^ 64 - 1

/-! ## Reward schedule — src/blockchain/reward.rs -/

namespace Reward

/-- `BLOCKS_PER_YEAR` constant from src/blockchain/reward.rs (10-minute blocks). -/
def BLOCKS_PER_YEAR : ℕ := 52560

/-- `COIN` constant: 1 BTP = 100,000,000 base units. -/
def COIN : ℕ := 100000000

/-- `INITIAL_REWARD` constant: 32.375 BTP (an `f64` in the source,
exactly representable, modelled as the rational it denotes). -/
def INITIAL_REWARD : ℚ := 32.375

/-- `FINAL_REWARD` constant: 0.5 BTP tail emission. -/
def FINAL_REWARD : ℚ := 0.5

/-- `DECAY_PERIOD_YEARS` constant. -/
def DECAY_PERIOD_YEARS : ℕ := 24

/-- `DECAY_PERIOD_BLOCKS = BLOCKS_PER_YEAR * DECAY_PERIOD_YEARS`. -/
def DECAY_PERIOD_BLOCKS : ℕ := BLOCKS_PER_YEAR * DECAY_PERIOD_YEARS

/-- `calculate_block_reward` from src/blockchain/reward.rs.
The source computes over `f64` and truncates with `as u64`; every
quantity is non-negative, so the truncation is a floor.  The `f64`
arithmetic is modelled as exact rational arithmetic. -/
def calculate_block_reward (block_height : ℕ) : ℕ :=
  if (DECAY_PERIOD_BLOCKS : ℚ) ≤ (block_height : ℚ) then
    (Int.floor (FINAL_REWARD * (COIN : ℚ))).toNat
  else
    let progress : ℚ := (block_height : ℚ) / (DECAY_PERIOD_BLOCKS : ℚ)
    let reward_btp : ℚ := INITIAL_REWARD - (INITIAL_REWARD - FINAL_REWARD) * progress
    let reward_base_units : ℕ := (Int.floor (reward_btp * (COIN : ℚ))).toNat
    let min_reward : ℕ := (Int.floor (FINAL_REWARD * (COIN : ℚ))).toNat
    max reward_base_units min_reward

/-- Reward characterization modelled from the spec's words:
reward = `INITIAL − (INITIAL − FINAL) × min(height, DECAY_BLOCKS)/DECAY_BLOCKS`,
converted to integer base units and floored, then clamped to never fall
below the tail-emission floor. -/
def spec_reward_formula (block_height : ℕ) : ℕ :=
  max
    ((Int.floor ((INITIAL_REWARD -
        (INITIAL_REWARD - FINAL_REWARD) *
          ((min block_height DECAY_PERIOD_BLOCKS : ℕ) : ℚ) / (DECAY_PERIOD_BLOCKS : ℚ)) *
        (COIN : ℚ))).toNat)
    ((Int.floor (FINAL_REWARD * (COIN : ℚ))).toNat)

end Reward

/-! ## Enhanced reward — QuantumResistantBlockchain::calculate_block_reward,
src/blockchain/chain.rs.  Pure u64 arithmetic; no intermediate value can
reach 2^64, so plain `ℕ` arithmetic is exact. -/

namespace QuantumResistantBlockchain

/-- `BLOCKS_PER_ERA` constant from src/blockchain/chain.rs. -/
def BLOCKS_PER_ERA : ℕ := 210000

/-- `INITIAL_REWARD` constant from src/blockchain/chain.rs (in credits). -/
def INITIAL_REWARD : ℕ := 32375000000

/-- `FINAL_ERA = 24 * 52_560 / 210_000` (integer division, = 6). -/
def FINAL_ERA : ℕ := 24 * 52560 / 210000

/-- `QuantumResistantBlockchain::calculate_block_reward` from
src/blockchain/chain.rs: per-era step decay, then 0.5 BTP tail. -/
def calculate_block_reward (height : ℕ) : ℕ :=
  let era := height / BLOCKS_PER_ERA
  if era < FINAL_ERA then
    let blocks_in_era := height % BLOCKS_PER_ERA
    let era_reward := INITIAL_REWARD * (FINAL_ERA - era) / FINAL_ERA
    let decay_per_block := era_reward / BLOCKS_PER_ERA
    era_reward - decay_per_block * blocks_in_era
  else
    50000000

end QuantumResistantBlockchain

/-- C1 counterexample: the two reward implementations do not satisfy one
common characterization.  At height 0 the reward.rs implementation pays
`INITIAL_REWARD` in base units, 3,237,500,000, while the chain.rs
implementation pays 32,375,000,000; moreover inside the decay window
(height 105,000) the chain.rs value does not match the linear
interpolation value computed by reward.rs scaled by any constant era
pattern — the two schedules disagree. -/
theorem C1_counterexample :
    Reward.calculate_block_reward 0 = 3237500000 ∧
    QuantumResistantBlockchain.calculate_block_reward 0 = 32375000000 ∧
    QuantumResistantBlockchain.calculate_block_reward 0 ≠ 3237500000 := by
  refine ⟨?_, by decide, by decide⟩
  show (if (Reward.DECAY_PERIOD_BLOCKS : ℚ) ≤ ((0 : ℕ) : ℚ) then _ else _) = _
  rw [if_neg (by norm_num [Reward.DECAY_PERIOD_BLOCKS, Reward.BLOCKS_PER_YEAR, Reward.DECAY_PERIOD_YEARS])]
  norm_num [Reward.INITIAL_REWARD, Reward.FINAL_REWARD, Reward.COIN]
  decide

/-- C1 (amended): the characterization — linear interpolation down to the
tail floor, `reward(0) = INITIAL` in base units, constant `FINAL` beyond
the decay horizon — holds for `blockchain::reward::calculate_block_reward`
(with its `f64` arithmetic read as exact real arithmetic), but not for
`QuantumResistantBlockchain::calculate_block_reward`. -/
theorem C1_reward_linear_decay (h : ℕ) :
    Reward.calculate_block_reward h = Reward.spec_reward_formula h ∧
    (Reward.DECAY_PERIOD_BLOCKS ≤ h → Reward.calculate_block_reward h = 50000000) ∧
    Reward.calculate_block_reward 0 = 3237500000 := by
  have hD : (Reward.DECAY_PERIOD_BLOCKS : ℚ) = 1261440 := by
    norm_num [Reward.DECAY_PERIOD_BLOCKS, Reward.BLOCKS_PER_YEAR, Reward.DECAY_PERIOD_YEARS]
  have hfinal : (Int.floor (Reward.FINAL_REWARD * (Reward.COIN : ℚ))).toNat = 50000000 := by
    norm_num [Reward.FINAL_REWARD, Reward.COIN]
    decide
  refine ⟨?_, ?_, C1_counterexample.1⟩
  · unfold Reward.calculate_block_reward Reward.spec_reward_formula
    by_cases hcase : Reward.DECAY_PERIOD_BLOCKS ≤ h
    · rw [if_pos (by exact_mod_cast hcase), min_eq_right hcase]
      have : (Reward.INITIAL_REWARD -
          (Reward.INITIAL_REWARD - Reward.FINAL_REWARD) *
            ((Reward.DECAY_PERIOD_BLOCKS : ℕ) : ℚ) / (Reward.DECAY_PERIOD_BLOCKS : ℚ)) *
          (Reward.COIN : ℚ) = Reward.FINAL_REWARD * (Reward.COIN : ℚ) := by
        rw [hD]; norm_num
      rw [this, max_self]
    · have hlt : h < Reward.DECAY_PERIOD_BLOCKS := lt_of_not_le hcase
      rw [if_neg (by push_neg; exact_mod_cast hlt), min_eq_left (le_of_lt hlt)]
      rw [mul_div_assoc]
  · intro hge
    unfold Reward.calculate_block_reward
    rw [if_pos (by exact_mod_cast hge)]
    exact hfinal

/-- Witness for C1_reward_linear_decay: evaluate at the decay horizon. -/
theorem C1_reward_linear_decay_witness :
    Reward.DECAY_PERIOD_BLOCKS ≤ 1261440 ∧
    Reward.calculate_block_reward 1261440 = 50000000 := by
  have hle : Reward.DECAY_PERIOD_BLOCKS ≤ 1261440 := by
    norm_num [Reward.DECAY_PERIOD_BLOCKS, Reward.BLOCKS_PER_YEAR, Reward.DECAY_PERIOD_YEARS]
  exact ⟨hle, (C1_reward_linear_decay 1261440).2.1 hle⟩

/-! ## Difficulty retargeting — src/consensus/difficulty.rs -/

namespace Difficulty

/-- `DifficultyParams` struct from src/consensus/difficulty.rs. -/
structure DifficultyParams where
  target_block_time : ℕ
  adjustment_interval : ℕ
  min_difficulty : ℕ
  max_difficulty : ℕ
  difficulty_precision : ℕ
deriving DecidableEq

/-- `Default for DifficultyParams` (Bitcoin-style 2016-block, 600-second schedule). -/
def DifficultyParams.default : DifficultyParams :=
  { target_block_time := 600
    adjustment_interval := 2016
    min_difficulty := 1
    max_difficulty := U64_MAX
    difficulty_precision := 16 }

/-- `DifficultyManager` struct: params plus mutable difficulty state. -/
structure DifficultyManager where
  params : DifficultyParams
  current_difficulty : ℕ
  last_adjustment_height : ℕ
deriving DecidableEq

/-- `DifficultyManager::new`. -/
def DifficultyManager.new (params : DifficultyParams) (initial_difficulty : ℕ) :
    DifficultyManager :=
  { params := params
    current_difficulty := initial_difficulty
    last_adjustment_height := 0 }

/-- `DifficultyManager::adjust_difficulty` from src/consensus/difficulty.rs,
as a state-passing function.  The u64 sum and product wrap modulo 2^64
(release-mode semantics); the `f64` division and multiplication are
modelled as exact rational arithmetic, and the final `as u64` cast from
`f64` is a saturating floor (Rust float-to-int casts saturate). -/
def adjust_difficulty (m : DifficultyManager) (current_height : ℕ)
    (previous_block_times : List ℕ) : Except String ℕ × DifficultyManager :=
  if current_height < m.last_adjustment_height + m.params.adjustment_interval then
    (.ok m.current_difficulty, m)
  else if previous_block_times.length < m.params.adjustment_interval then
    (.error "Insufficient block time data for adjustment", m)
  else
    let actual_time : ℕ := previous_block_times.sum % 2 ^ 64
    let expected_time : ℕ := m.params.target_block_time * m.params.adjustment_interval % 2 ^ 64
    let adjustment_factor : ℚ :=
      if actual_time = 0 then 1 else (expected_time : ℚ) / (actual_time : ℚ)
    let new_difficulty : ℕ :=
      min (Int.floor ((m.current_difficulty : ℚ) * adjustment_factor)).toNat U64_MAX
    let clamped : ℕ := min (max new_difficulty m.params.min_difficulty) m.params.max_difficulty
    (.ok clamped,
     { m with current_difficulty := clamped, last_adjustment_height := current_height })

end Difficulty

/-- C4 counterexample: at an adjustment height with fewer than
`adjustment_interval` block-time samples, `adjust_difficulty` does not
return the unchanged current difficulty successfully — it returns the
error string "Insufficient block time data for adjustment". -/
theorem C4_counterexample :
    Difficulty.adjust_difficulty
        (Difficulty.DifficultyManager.new Difficulty.DifficultyParams.default 1000) 2016 [] =
      (.error "Insufficient block time data for adjustment",
       Difficulty.DifficultyManager.new Difficulty.DifficultyParams.default 1000) := by
  rfl

/-- C4 (amended): at an adjustment height with fewer than
`adjustment_interval` samples, `adjust_difficulty` returns the error
"Insufficient block time data for adjustment" to the caller and leaves
the difficulty state unchanged. -/
theorem C4_insufficient_samples_errors (m : Difficulty.DifficultyManager)
    (current_height : ℕ) (times : List ℕ)
    (hheight : m.last_adjustment_height + m.params.adjustment_interval ≤ current_height)
    (hlen : times.length < m.params.adjustment_interval) :
    Difficulty.adjust_difficulty m current_height times =
      (.error "Insufficient block time data for adjustment", m) := by
  unfold Difficulty.adjust_difficulty
  rw [if_neg (by omega), if_pos hlen]

/-- Witness for C4_insufficient_samples_errors at a concrete state. -/
theorem C4_insufficient_samples_errors_witness :
    Difficulty.adjust_difficulty
        (Difficulty.DifficultyManager.new Difficulty.DifficultyParams.default 1000) 2016 [600] =
      (.error "Insufficient block time data for adjustment",
       Difficulty.DifficultyManager.new Difficulty.DifficultyParams.default 1000) :=
  C4_insufficient_samples_errors _ 2016 [600] (by decide) (by decide)

/-- Saturating at u64::MAX before clamping into `[lo, hi]` is the same as
clamping directly, whenever both bounds are representable. -/
theorem clamp_after_saturation (x lo hi M : ℕ) (hlo : lo ≤ M) (hhi : hi ≤ M) :
    min (max (min x M) lo) hi = min (max x lo) hi := by
  omega

/-- C5: before the next adjustment height `adjust_difficulty` is a no-op
returning the current difficulty; at or past it, with enough samples and
a non-zero total time (and u64-representable totals and bounds), the new
difficulty is `current × (target_block_time × adjustment_interval /
sum(times))` floored, clamped to `[min_difficulty, max_difficulty]`,
the last-adjustment height becomes `current_height`, and the clamped
value is returned. -/
theorem C5_adjust_difficulty_spec (m : Difficulty.DifficultyManager)
    (current_height : ℕ) (times : List ℕ)
    (hmin : m.params.min_difficulty ≤ U64_MAX)
    (hmax : m.params.max_difficulty ≤ U64_MAX) :
    (current_height < m.last_adjustment_height + m.params.adjustment_interval →
      Difficulty.adjust_difficulty m current_height times = (.ok m.current_difficulty, m)) ∧
    (m.last_adjustment_height + m.params.adjustment_interval ≤ current_height →
     m.params.adjustment_interval ≤ times.length →
     times.sum ≠ 0 → times.sum < 2 ^ 64 →
     m.params.target_block_time * m.params.adjustment_interval < 2 ^ 64 →
     Difficulty.adjust_difficulty m current_height times =
       (.ok (min (max (Int.floor ((m.current_difficulty : ℚ) *
                ((m.params.target_block_time * m.params.adjustment_interval : ℕ) : ℚ) /
                (times.sum : ℚ))).toNat m.params.min_difficulty) m.params.max_difficulty),
        { m with
            current_difficulty :=
              min (max (Int.floor ((m.current_difficulty : ℚ) *
                ((m.params.target_block_time * m.params.adjustment_interval : ℕ) : ℚ) /
                (times.sum : ℚ))).toNat m.params.min_difficulty) m.params.max_difficulty
            last_adjustment_height := current_height })) := by
  constructor
  · intro hlt
    unfold Difficulty.adjust_difficulty
    rw [if_pos hlt]
  · intro hheight hlen hsum hsumlt hprodlt
    unfold Difficulty.adjust_difficulty
    rw [if_neg (by omega), if_neg (by omega)]
    have hsummod : times.sum % 2 ^ 64 = times.sum := Nat.mod_eq_of_lt hsumlt
    have hprodmod :
        m.params.target_block_time * m.params.adjustment_interval % 2 ^ 64 =
          m.params.target_block_time * m.params.adjustment_interval :=
      Nat.mod_eq_of_lt hprodlt
    simp only [hsummod, hprodmod, if_neg hsum]
    rw [← mul_div_assoc]
    rw [clamp_after_saturation _ _ _ _ hmin hmax]

/-- Witness for C5_adjust_difficulty_spec: both branches at concrete
inputs (a below-interval no-op, and a real adjustment with two samples
of 600 seconds at a 2-block interval, which leaves difficulty at the
clamped value). -/
theorem C5_adjust_difficulty_spec_witness :
    Difficulty.adjust_difficulty
        (Difficulty.DifficultyManager.new Difficulty.DifficultyParams.default 1000) 1 [] =
      (.ok 1000, Difficulty.DifficultyManager.new Difficulty.DifficultyParams.default 1000) ∧
    Difficulty.adjust_difficulty
        { params :=
            { target_block_time := 600, adjustment_interval := 2, min_difficulty := 1
              max_difficulty := U64_MAX, difficulty_precision := 16 }
          current_difficulty := 1000, last_adjustment_height := 0 } 2 [600, 600] =
      (.ok (min (max (Int.floor ((1000 : ℚ) * (((600 * 2 : ℕ) : ℕ) : ℚ) /
              (([600, 600] : List ℕ).sum : ℚ))).toNat 1) U64_MAX),
       { params :=
           { target_block_time := 600, adjustment_interval := 2, min_difficulty := 1
             max_difficulty := U64_MAX, difficulty_precision := 16 }
         current_difficulty :=
           min (max (Int.floor ((1000 : ℚ) * (((600 * 2 : ℕ) : ℕ) : ℚ) /
             (([600, 600] : List ℕ).sum : ℚ))).toNat 1) U64_MAX
         last_adjustment_height := 2 }) := by
  constructor
  · exact (C5_adjust_difficulty_spec _ 1 [] (by decide) (by decide)).1 (by decide)
  · exact (C5_adjust_difficulty_spec _ 2 [600, 600] (by decide) (le_refl _)).2
      (by decide) (by decide) (by decide) (by decide) (by decide)

/-! ## Compact (nBits) difficulty encoding — src/consensus/difficulty.rs -/

namespace Compact

/-- `CompactDifficulty::to_difficulty` from src/consensus/difficulty.rs.
The compact value is a u32; the mantissa is widened to u64 before the
left shift, whose overflowing bits are discarded (`% 2^64`). -/
def to_difficulty (c : ℕ) : ℕ :=
  let exponent := c >>> 24
  let mantissa := c &&& 0xFFFFFF
  if exponent ≤ 3 then
    mantissa >>> (8 * (3 - exponent))
  else
    (mantissa <<< (8 * (exponent - 3))) % 2 ^ 64

/-- `CompactDifficulty::from_difficulty` from src/consensus/difficulty.rs.
`size` is `ilog2/8 + 1` (`Nat.log2` is the floor log2 that u64::ilog2
computes); the intermediate `as u32` casts truncate modulo 2^32, and the
sign-bit correction shifts the mantissa right by 8 bits. -/
def from_difficulty (difficulty : ℕ) : ℕ :=
  if difficulty = 0 then 0
  else
    let size := difficulty.log2 / 8 + 1
    let compact :=
      if size ≤ 3 then (difficulty <<< (8 * (3 - size))) % 2 ^ 32
      else (difficulty >>> (8 * (size - 3))) % 2 ^ 32
    let compact1 := if compact &&& 0x800000 ≠ 0 then compact >>> 8 else compact
    let size1 := if compact &&& 0x800000 ≠ 0 then size + 1 else size
    compact1 ||| ((size1 % 2 ^ 8) <<< 24)

/-- `Nat.log2` agrees with the usual power sandwich. -/
theorem log2_eq_of_bounds (k n : ℕ) (h1 : 2 ^ k ≤ n) (h2 : n < 2 ^ (k + 1)) :
    n.log2 = k := by
  have hn : n ≠ 0 := by
    have : (0 : ℕ) < 2 ^ k := Nat.pos_pow_of_pos k (by norm_num)
    omega
  have ha : n.log2 < k + 1 := (Nat.log2_lt hn).2 h2
  have hb : ¬n.log2 < k := fun hc => absurd ((Nat.log2_lt hn).1 hc) (by omega)
  omega

/-- The sign-bit test `x &&& 0x800000 != 0` on a 24-bit value is the
comparison `2^23 ≤ x`. -/
theorem sign_bit_test (n : ℕ) (h : n < 2 ^ 24) : n &&& 0x800000 ≠ 0 ↔ 2 ^ 23 ≤ n := by
  have h8 : (0x800000 : ℕ) = 2 ^ 23 := by norm_num
  rw [h8, Nat.and_two_pow, Nat.testBit_to_div_mod]
  rcases Nat.lt_or_ge n (2 ^ 23) with h1 | h1
  · have hz : n / 2 ^ 23 = 0 := Nat.div_eq_of_lt h1
    simp [hz]
    omega
  · have ho : n / 2 ^ 23 = 1 := by
      have e1 : (2 : ℕ) ^ 23 = 8388608 := by norm_num
      have e2 : (2 : ℕ) ^ 24 = 16777216 := by norm_num
      rw [e1]; rw [e1] at h1; rw [e2] at h
      omega
    simp [ho]
    omega

/-- Packing a small mantissa with an exponent field is plain arithmetic. -/
theorem lor_exp_form (a b : ℕ) (h : a < 2 ^ 24) : a ||| (b <<< 24) = b * 2 ^ 24 + a := by
  calc a ||| (b <<< 24) = a ||| 2 ^ 24 * b := by rw [Nat.shiftLeft_eq, Nat.mul_comm]
    _ = 2 ^ 24 * b ||| a := Nat.lor_comm _ _
    _ = 2 ^ 24 * b + a := (Nat.mul_add_lt_is_or h b).symm
    _ = b * 2 ^ 24 + a := by ring

/-- Decoding a packed value `mantissa ||| (s <<< 24)` with `s ≤ 3` and a
mantissa of the form `d * 2^(8(3-s))` recovers `d`. -/
theorem to_difficulty_of_packed (d s : ℕ) (hs : s ≤ 3)
    (hd : d * 2 ^ (8 * (3 - s)) < 2 ^ 24) :
    to_difficulty ((d * 2 ^ (8 * (3 - s))) ||| ((s % 2 ^ 8) <<< 24)) = d := by
  have hs256 : s % 2 ^ 8 = s := Nat.mod_eq_of_lt (by norm_num; omega)
  rw [hs256, lor_exp_form _ _ hd]
  unfold to_difficulty
  have hexp : (s * 2 ^ 24 + d * 2 ^ (8 * (3 - s))) >>> 24 = s := by
    rw [Nat.shiftRight_eq_div_pow, Nat.mul_comm s (2 ^ 24), Nat.mul_add_div (by norm_num)]
    rw [Nat.div_eq_of_lt hd]
    omega
  have hmant : (s * 2 ^ 24 + d * 2 ^ (8 * (3 - s))) &&& 0xFFFFFF = d * 2 ^ (8 * (3 - s)) := by
    have hm : (0xFFFFFF : ℕ) = 2 ^ 24 - 1 := by norm_num
    rw [hm, Nat.and_pow_two_sub_one_eq_mod, Nat.add_comm, Nat.add_mul_mod_self_right]
    exact Nat.mod_eq_of_lt hd
  simp only [hexp, hmant, if_pos hs]
  rw [Nat.shiftRight_eq_div_pow]
  exact Nat.mul_div_cancel _ (Nat.pos_pow_of_pos _ (by norm_num))

end Compact

/-- C3 counterexample: the compact encoding round-trip is not exact for
every difficulty below 2^24.  At 8,388,609 = 0x800001 the sign-bit
normalization shifts out the low byte, and decoding yields 8,388,608. -/
theorem C3_counterexample :
    (8388609 : ℕ) < 2 ^ 24 ∧
    Compact.to_difficulty (Compact.from_difficulty 8388609) = 8388608 ∧
    (8388608 : ℕ) ≠ 8388609 := by
  refine ⟨by norm_num, ?_, by decide⟩
  have hlog : Nat.log2 8388609 = 23 :=
    Compact.log2_eq_of_bounds 23 8388609 (by norm_num) (by norm_num)
  unfold Compact.from_difficulty
  rw [if_neg (by norm_num)]
  simp only [hlog]
  decide

/-! Case analysis for the compact round-trip on small difficulties. -/

namespace Compact

/-- Evaluation of `from_difficulty` when the computed mantissa has a clear
sign bit: no normalization happens. -/
theorem from_difficulty_eval (d s : ℕ) (h0 : d ≠ 0) (hsize : d.log2 / 8 + 1 = s)
    (hs3 : s ≤ 3) (hlt : d * 2 ^ (8 * (3 - s)) < 2 ^ 23) :
    from_difficulty d = (d * 2 ^ (8 * (3 - s))) ||| ((s % 2 ^ 8) <<< 24) := by
  unfold from_difficulty
  rw [if_neg h0]
  simp only [hsize]
  rw [if_pos hs3]
  have hshl : (d <<< (8 * (3 - s))) % 2 ^ 32 = d * 2 ^ (8 * (3 - s)) := by
    rw [Nat.shiftLeft_eq]
    exact Nat.mod_eq_of_lt (lt_trans hlt (by norm_num))
  rw [hshl]
  have hnosign : ¬(d * 2 ^ (8 * (3 - s)) &&& 0x800000 ≠ 0) := by
    rw [sign_bit_test _ (lt_trans hlt (by norm_num))]
    omega
  simp only [if_neg hnosign]

/-- Evaluation of `from_difficulty` when the computed mantissa has its top
bit set: the mantissa shifts right 8 bits and the exponent grows. -/
theorem from_difficulty_eval_signed (d s : ℕ) (h0 : d ≠ 0) (hsize : d.log2 / 8 + 1 = s)
    (hs3 : s ≤ 3) (hge : 2 ^ 23 ≤ d * 2 ^ (8 * (3 - s)))
    (hlt : d * 2 ^ (8 * (3 - s)) < 2 ^ 24) :
    from_difficulty d = ((d * 2 ^ (8 * (3 - s))) >>> 8) ||| (((s + 1) % 2 ^ 8) <<< 24) := by
  unfold from_difficulty
  rw [if_neg h0]
  simp only [hsize]
  rw [if_pos hs3]
  have hshl : (d <<< (8 * (3 - s))) % 2 ^ 32 = d * 2 ^ (8 * (3 - s)) := by
    rw [Nat.shiftLeft_eq]
    exact Nat.mod_eq_of_lt (lt_trans hlt (by norm_num))
  rw [hshl]
  have hsign : d * 2 ^ (8 * (3 - s)) &&& 0x800000 ≠ 0 := by
    rw [sign_bit_test _ hlt]
    exact hge
  simp only [if_pos hsign]

/-- Round trip on `[1, 2^7)`: one significant byte, clear top bit. -/
theorem roundtrip_b1 (d : ℕ) (h1 : 1 ≤ d) (h2 : d < 128) :
    to_difficulty (from_difficulty d) = d := by
  have h0 : d ≠ 0 := by omega
  have hlog : d.log2 < 8 := (Nat.log2_lt h0).2 (by omega)
  have hsize : d.log2 / 8 + 1 = 1 := by omega
  have hb : d * 2 ^ (8 * (3 - 1)) < 2 ^ 23 := by norm_num; omega
  rw [from_difficulty_eval d 1 h0 hsize (by norm_num) hb]
  exact to_difficulty_of_packed d 1 (by norm_num) (lt_trans hb (by norm_num))

/-- Round trip on `[2^7, 2^8)`: one significant byte, set top bit. -/
theorem roundtrip_b1s (d : ℕ) (h1 : 128 ≤ d) (h2 : d < 256) :
    to_difficulty (from_difficulty d) = d := by
  have h0 : d ≠ 0 := by omega
  have hlog_lo : ¬d.log2 < 7 := fun hc => absurd ((Nat.log2_lt h0).1 hc) (by omega)
  have hlog_hi : d.log2 < 8 := (Nat.log2_lt h0).2 (by omega)
  have hsize : d.log2 / 8 + 1 = 1 := by omega
  have hge : 2 ^ 23 ≤ d * 2 ^ (8 * (3 - 1)) := by norm_num; omega
  have hlt : d * 2 ^ (8 * (3 - 1)) < 2 ^ 24 := by norm_num; omega
  rw [from_difficulty_eval_signed d 1 h0 hsize (by norm_num) hge hlt]
  have hshr : (d * 2 ^ (8 * (3 - 1))) >>> 8 = d * 2 ^ (8 * (3 - 2)) := by
    rw [Nat.shiftRight_eq_div_pow]
    norm_num
    omega
  rw [hshr]
  show to_difficulty ((d * 2 ^ (8 * (3 - 2))) ||| ((2 % 2 ^ 8) <<< 24)) = d
  refine to_difficulty_of_packed d 2 (by norm_num) ?_
  norm_num
  omega

/-- Round trip on `[2^8, 2^15)`: two significant bytes, clear top bit. -/
theorem roundtrip_b2 (d : ℕ) (h1 : 256 ≤ d) (h2 : d < 32768) :
    to_difficulty (from_difficulty d) = d := by
  have h0 : d ≠ 0 := by omega
  have hlog_lo : ¬d.log2 < 8 := fun hc => absurd ((Nat.log2_lt h0).1 hc) (by omega)
  have hlog_hi : d.log2 < 15 := (Nat.log2_lt h0).2 (by omega)
  have hsize : d.log2 / 8 + 1 = 2 := by omega
  have hb : d * 2 ^ (8 * (3 - 2)) < 2 ^ 23 := by norm_num; omega
  rw [from_difficulty_eval d 2 h0 hsize (by norm_num) hb]
  exact to_difficulty_of_packed d 2 (by norm_num) (lt_trans hb (by norm_num))

/-- Round trip on `[2^15, 2^16)`: two significant bytes, set top bit. -/
theorem roundtrip_b2s (d : ℕ) (h1 : 32768 ≤ d) (h2 : d < 65536) :
    to_difficulty (from_difficulty d) = d := by
  have h0 : d ≠ 0 := by omega
  have hlog_lo : ¬d.log2 < 15 := fun hc => absurd ((Nat.log2_lt h0).1 hc) (by omega)
  have hlog_hi : d.log2 < 16 := (Nat.log2_lt h0).2 (by omega)
  have hsize : d.log2 / 8 + 1 = 2 := by omega
  have hge : 2 ^ 23 ≤ d * 2 ^ (8 * (3 - 2)) := by norm_num; omega
  have hlt : d * 2 ^ (8 * (3 - 2)) < 2 ^ 24 := by norm_num; omega
  rw [from_difficulty_eval_signed d 2 h0 hsize (by norm_num) hge hlt]
  have hshr : (d * 2 ^ (8 * (3 - 2))) >>> 8 = d * 2 ^ (8 * (3 - 3)) := by
    rw [Nat.shiftRight_eq_div_pow]
    norm_num
  rw [hshr]
  show to_difficulty ((d * 2 ^ (8 * (3 - 3))) ||| ((3 % 2 ^ 8) <<< 24)) = d
  refine to_difficulty_of_packed d 3 (by norm_num) ?_
  norm_num
  omega

/-- Round trip on `[2^16, 2^23)`: three significant bytes, clear top bit. -/
theorem roundtrip_b3 (d : ℕ) (h1 : 65536 ≤ d) (h2 : d < 8388608) :
    to_difficulty (from_difficulty d) = d := by
  have h0 : d ≠ 0 := by omega
  have hlog_lo : ¬d.log2 < 16 := fun hc => absurd ((Nat.log2_lt h0).1 hc) (by omega)
  have hlog_hi : d.log2 < 23 := (Nat.log2_lt h0).2 (by omega)
  have hsize : d.log2 / 8 + 1 = 3 := by omega
  have hb : d * 2 ^ (8 * (3 - 3)) < 2 ^ 23 := by norm_num; omega
  rw [from_difficulty_eval d 3 h0 hsize (by norm_num) hb]
  exact to_difficulty_of_packed d 3 (by norm_num) (lt_trans hb (by norm_num))

end Compact

/-- C3 (amended): the compact (nBits) round-trip is exact for every
difficulty below 2^23.  For difficulties in `[2^23, 2^24)` whose low byte
is non-zero the sign-bit normalization is lossy, so the spec's `< 2^24`
bound is too generous. -/
theorem C3_compact_roundtrip (d : ℕ) (hd : d < 2 ^ 23) :
    Compact.to_difficulty (Compact.from_difficulty d) = d := by
  have hd8 : d < 8388608 := by omega
  rcases Nat.eq_zero_or_pos d with h0 | h0
  · subst h0
    decide
  · rcases Nat.lt_or_ge d 128 with hc | hc
    · exact Compact.roundtrip_b1 d h0 hc
    · rcases Nat.lt_or_ge d 256 with hc2 | hc2
      · exact Compact.roundtrip_b1s d hc hc2
      · rcases Nat.lt_or_ge d 32768 with hc3 | hc3
        · exact Compact.roundtrip_b2 d hc2 hc3
        · rcases Nat.lt_or_ge d 65536 with hc4 | hc4
          · exact Compact.roundtrip_b2s d hc3 hc4
          · exact Compact.roundtrip_b3 d hc4 hd8

/-- Witness for C3_compact_roundtrip at difficulty 5,000,000. -/
theorem C3_compact_roundtrip_witness :
    Compact.to_difficulty (Compact.from_difficulty 5000000) = 5000000 :=
  C3_compact_roundtrip 5000000 (by norm_num)

/-! ## UTXO set — src/database/utxo_set.rs -/

namespace UTXO

/-- `TxOutput` struct: value in base units plus an opaque locking script. -/
structure TxOutput where
  value : ℕ
  script_pubkey : List ℕ
deriving DecidableEq

/-- `OutPoint` struct: (transaction hash, output index).  The 64-byte
SHA-512 hash is modelled as its byte list. -/
structure OutPoint where
  tx_hash : List ℕ
  index : ℕ
deriving DecidableEq

/-- `UTXOEntry = (TxOutput, block_height, is_coinbase)`. -/
def UTXOEntry := TxOutput × ℕ × Bool
deriving instance DecidableEq for UTXOEntry

/-- `UTXOError` enum from src/database/utxo_set.rs.  Note: there is no
`AlreadyExists` variant anywhere in the repository. -/
inductive UTXOError where
  | SerializationError (msg : String)
  | NotFound
  | AlreadySpent
  | InvalidInput
deriving DecidableEq

/-- `UTXOStats` struct. -/
structure UTXOStats where
  total_outputs : ℕ
  total_value : ℕ
  unspent_outputs : ℕ
  unspent_value : ℕ
deriving DecidableEq

/-- `MemoryUTXOStorage`: the in-memory `HashMap<OutPoint, UTXOEntry>` is
modelled as an association list (the map API never creates duplicate
keys, and no claim depends on iteration order). -/
structure MemoryUTXOStorage where
  outputs : List (OutPoint × UTXOEntry)
deriving DecidableEq

/-- `HashMap::contains_key`. -/
def contains_key (s : MemoryUTXOStorage) (op : OutPoint) : Bool :=
  (s.outputs.find? fun e => decide (e.1 = op)).isSome

/-- `MemoryUTXOStorage::add_output`: guards against overwriting an
existing outpoint with `Err(UTXOError::InvalidInput)`, otherwise inserts. -/
def add_output (s : MemoryUTXOStorage) (op : OutPoint) (output : TxOutput)
    (block_height : ℕ) (is_coinbase : Bool) : Except UTXOError Unit × MemoryUTXOStorage :=
  if contains_key s op then
    (.error .InvalidInput, s)
  else
    (.ok (), ⟨(op, (output, block_height, is_coinbase)) :: s.outputs⟩)

/-- `MemoryUTXOStorage::spend_output`: `HashMap::remove`; fails
`NotFound` when the outpoint is absent, otherwise deletes the entry
(the spending hash is accepted but not retained). -/
def spend_output (s : MemoryUTXOStorage) (op : OutPoint) (_spending_tx_hash : List ℕ) :
    Except UTXOError Unit × MemoryUTXOStorage :=
  if contains_key s op then
    (.ok (), ⟨s.outputs.eraseP fun e => decide (e.1 = op)⟩)
  else
    (.error .NotFound, s)

/-- `u64::saturating_add`. -/
def saturating_add (a b : ℕ) : ℕ :=
  min (a + b) U64_MAX

/-- `MemoryUTXOStorage::get_stats`: counts come from `len()`, and both
value fields accumulate every entry's value with `saturating_add`. -/
def get_stats (s : MemoryUTXOStorage) : UTXOStats :=
  let total := s.outputs.length
  let value := s.outputs.foldl (fun acc e => saturating_add acc e.2.1.value) 0
  { total_outputs := total
    total_value := value
    unspent_outputs := total
    unspent_value := value }

/-- Folding `saturating_add` over non-negative values is the exact sum
clamped at u64::MAX. -/
theorem foldl_saturating_add (l : List (OutPoint × UTXOEntry)) :
    ∀ acc : ℕ, acc ≤ U64_MAX →
      l.foldl (fun acc e => saturating_add acc e.2.1.value) acc =
        min (acc + (l.map fun e => e.2.1.value).sum) U64_MAX := by
  induction l with
  | nil =>
    intro acc hacc
    simp
    omega
  | cons e rest ih =>
    intro acc hacc
    have hstep : saturating_add acc e.2.1.value ≤ U64_MAX := by
      unfold saturating_add
      omega
    simp only [List.foldl_cons, List.map_cons, List.sum_cons]
    rw [ih _ hstep]
    unfold saturating_add
    omega

end UTXO

/-- C2 counterexample: adding an already-present outpoint fails with
`UTXOError::InvalidInput` — not with an `AlreadyExists` error, which does
not exist in the repository's `UTXOError` enum at all. -/
theorem C2_counterexample :
    UTXO.add_output
        ⟨[(⟨[7], 0⟩, (⟨42, [81]⟩, 1, false))]⟩ ⟨[7], 0⟩ ⟨99, []⟩ 2 false =
      (.error .InvalidInput, ⟨[(⟨[7], 0⟩, (⟨42, [81]⟩, 1, false))]⟩) := by
  rfl

/-- C2 (amended): for every storage state, a second `add_output` on an
outpoint already present fails with `UTXOError::InvalidInput` (the enum
has no `AlreadyExists` variant) and leaves the state unchanged. -/
theorem C2_duplicate_add_fails (s : UTXO.MemoryUTXOStorage) (op : UTXO.OutPoint)
    (output : UTXO.TxOutput) (block_height : ℕ) (is_coinbase : Bool)
    (hpresent : UTXO.contains_key s op = true) :
    UTXO.add_output s op output block_height is_coinbase = (.error .InvalidInput, s) := by
  unfold UTXO.add_output
  rw [if_pos hpresent]

/-- Witness for C2_duplicate_add_fails at a one-entry store. -/
theorem C2_duplicate_add_fails_witness :
    UTXO.add_output
        ⟨[(⟨[7], 0⟩, (⟨42, [81]⟩, 1, false))]⟩ ⟨[7], 0⟩ ⟨99, []⟩ 2 false =
      (.error .InvalidInput, ⟨[(⟨[7], 0⟩, (⟨42, [81]⟩, 1, false))]⟩) :=
  C2_duplicate_add_fails ⟨[(⟨[7], 0⟩, (⟨42, [81]⟩, 1, false))]⟩ ⟨[7], 0⟩ ⟨99, []⟩ 2 false
    (by decide)

/-- C8 counterexample: `get_stats` does not always equal the exact sums —
the accumulators saturate.  With two entries of value 2^63 the map's
exact value sum is 2^64 but the reported `unspent_value` is 2^64 − 1. -/
theorem C8_counterexample :
    (UTXO.get_stats
        ⟨[(⟨[1], 0⟩, (⟨2 ^ 63, []⟩, 1, false)),
          (⟨[2], 0⟩, (⟨2 ^ 63, []⟩, 1, false))]⟩).unspent_value = 2 ^ 64 - 1 ∧
    ((([(⟨[1], 0⟩, (⟨2 ^ 63, []⟩, 1, false)),
        (⟨[2], 0⟩, (⟨2 ^ 63, []⟩, 1, false))] :
          List (UTXO.OutPoint × UTXO.UTXOEntry)).map fun e => e.2.1.value).sum = 2 ^ 64) ∧
    (2 ^ 64 - 1 : ℕ) ≠ 2 ^ 64 := by
  refine ⟨by decide, by decide, by norm_num⟩

/-- C8 (amended): for every storage state, `get_stats` is fully derived
from the live mapping: both output counts equal the number of entries,
and both value fields equal the sum of all entry values saturated at
u64::MAX (exactly the sum whenever it is u64-representable). -/
theorem C8_stats_derived_from_map (s : UTXO.MemoryUTXOStorage) :
    UTXO.get_stats s =
      { total_outputs := s.outputs.length
        total_value := min ((s.outputs.map fun e => e.2.1.value).sum) U64_MAX
        unspent_outputs := s.outputs.length
        unspent_value := min ((s.outputs.map fun e => e.2.1.value).sum) U64_MAX } := by
  unfold UTXO.get_stats
  have h := UTXO.foldl_saturating_add s.outputs 0 (by unfold U64_MAX; omega)
  simp only [Nat.zero_add] at h
  rw [h]

/-- C10: a failing `add_output` (outpoint already present) and a failing
`spend_output` (outpoint absent) both leave the underlying map unchanged. -/
theorem C10_failed_ops_leave_map_unchanged (s : UTXO.MemoryUTXOStorage)
    (op : UTXO.OutPoint) (output : UTXO.TxOutput) (block_height : ℕ)
    (is_coinbase : Bool) (spending : List ℕ) :
    (UTXO.contains_key s op = true →
      UTXO.add_output s op output block_height is_coinbase = (.error .InvalidInput, s)) ∧
    (UTXO.contains_key s op = false →
      UTXO.spend_output s op spending = (.error .NotFound, s)) := by
  constructor
  · intro hpresent
    unfold UTXO.add_output
    rw [if_pos hpresent]
  · intro habsent
    unfold UTXO.spend_output
    rw [if_neg (by rw [habsent]; exact Bool.false_ne_true)]

/-- Witness for C10_failed_ops_leave_map_unchanged: a duplicate add on a
one-entry store, and a spend of an unknown outpoint on the same store. -/
theorem C10_failed_ops_leave_map_unchanged_witness :
    UTXO.add_output
        ⟨[(⟨[7], 0⟩, (⟨42, [81]⟩, 1, false))]⟩ ⟨[7], 0⟩ ⟨99, []⟩ 2 false =
      (.error .InvalidInput, ⟨[(⟨[7], 0⟩, (⟨42, [81]⟩, 1, false))]⟩) ∧
    UTXO.spend_output ⟨[(⟨[7], 0⟩, (⟨42, [81]⟩, 1, false))]⟩ ⟨[8], 0⟩ [5] =
      (.error .NotFound, ⟨[(⟨[7], 0⟩, (⟨42, [81]⟩, 1, false))]⟩) :=
  ⟨(C10_failed_ops_leave_map_unchanged ⟨[(⟨[7], 0⟩, (⟨42, [81]⟩, 1, false))]⟩ ⟨[7], 0⟩
      ⟨99, []⟩ 2 false [5]).1 (by decide),
   (C10_failed_ops_leave_map_unchanged ⟨[(⟨[7], 0⟩, (⟨42, [81]⟩, 1, false))]⟩ ⟨[8], 0⟩
      ⟨99, []⟩ 2 false [5]).2 (by decide)⟩

/-! ## Sync state machine — src/network/sync.rs.
The manager's `Arc<RwLock<...>>` cells are modelled as plain fields with
explicit state passing: the source only touches them synchronously
between suspension points, and the embedded functions are the lock-free
sequential bodies.  `tokio::time::sleep` calls are pure delays with no
state effect and are dropped. -/

namespace Sync

/-- `ProtocolError` enum from src/network/protocol.rs. -/
inductive ProtocolError where
  | InvalidMessage
  | InvalidSignature
  | InvalidVersion
  | InvalidNonce
  | SerializationError (msg : String)
  | NetworkError (msg : String)
  | PeerError (msg : String)
  | Timeout
deriving DecidableEq

/-- `SyncError` enum from src/network/sync.rs. -/
inductive SyncError where
  | Protocol (e : ProtocolError)
  | NoPeers
  | Timeout
  | InvalidChain
  | DatabaseError (msg : String)
  | AlreadySyncing
deriving DecidableEq

/-- `SyncStatus` enum from src/network/sync.rs. -/
inductive SyncStatus where
  | Idle
  | DiscoveringPeers
  | FetchingHeaders
  | DownloadingBlocks
  | VerifyingBlocks
  | Completed
  | Error (reason : String)
deriving DecidableEq

/-- `PROTOCOL_VERSION` constant from src/network/protocol.rs. -/
def PROTOCOL_VERSION : ℕ := 1

/-- `PeerInfo` record from src/network/protocol.rs released of its
network-address details (the socket address and public key are opaque
byte data irrelevant to validity). -/
structure PeerInfo where
  address : String
  public_key : List ℕ
  last_seen : ℕ
  user_agent : String
  version : ℕ
  services : ℕ
  connection_time : ℕ
deriving DecidableEq

/-- `PeerInfo::is_valid` from src/network/protocol.rs. -/
def PeerInfo.valid (p : PeerInfo) : Bool :=
  decide (PROTOCOL_VERSION ≤ p.version) && !p.user_agent.isEmpty &&
    decide (0 < p.last_seen)

/-- `SyncState` struct; `progress` is an `f64` modelled as `ℚ`. -/
structure SyncState where
  current_height : ℕ
  target_height : ℕ
  progress : ℚ
  status : SyncStatus
  peers_connected : ℕ
  blocks_downloaded : ℕ
  bytes_transferred : ℕ
  start_time : ℕ
  estimated_time_remaining : ℕ
deriving DecidableEq

/-- `SyncManager`: the shared state cells, flattened. -/
structure SyncManager where
  state : SyncState
  known_peers : List PeerInfo
  active_peers : List String
  block_queue : List (List ℕ)
  requested_blocks : List (List ℕ)
deriving DecidableEq

/-- `SyncManager::get_best_peers`: valid known peers, first `count`. -/
def get_best_peers (m : SyncManager) (count : ℕ) : List PeerInfo :=
  (m.known_peers.filter PeerInfo.valid).take count

/-- `SyncManager::discover_peers`: sets the status, then fails `NoPeers`
when no valid peer exists, else records the connected-peer count. -/
def discover_peers (m : SyncManager) : Except SyncError Unit × SyncManager :=
  let m1 := { m with state := { m.state with status := .DiscoveringPeers } }
  let peers := get_best_peers m1 5
  if peers.isEmpty then
    (.error .NoPeers, m1)
  else
    (.ok (), { m1 with state := { m1.state with peers_connected := peers.length } })

/-- `SyncManager::fetch_headers`: sets the status; header requests to the
best peers are best-effort (`request_headers` always returns `Ok` and
failures would only be logged), so the stage always succeeds. -/
def fetch_headers (m : SyncManager) : Except SyncError Unit × SyncManager :=
  (.ok (), { m with state := { m.state with status := .FetchingHeaders } })

/-- `SyncManager::download_blocks`: sets the status; the source's
`get_blocks_to_download` stub returns an empty list, so the download
loop body never runs and the stage succeeds. -/
def download_blocks (m : SyncManager) : Except SyncError Unit × SyncManager :=
  (.ok (), { m with state := { m.state with status := .DownloadingBlocks } })

/-- `SyncManager::start_sync` from src/network/sync.rs: guard on `Idle`,
then discover peers, fetch headers, download blocks, and mark the cycle
`Completed` with progress 100.0. -/
def start_sync (m : SyncManager) : Except SyncError Unit × SyncManager :=
  if m.state.status ≠ SyncStatus.Idle then
    (.error .AlreadySyncing, m)
  else
    let m1 := { m with state := { m.state with status := .DiscoveringPeers } }
    match discover_peers m1 with
    | (.error e, m2) => (.error e, m2)
    | (.ok _, m2) =>
      match fetch_headers m2 with
      | (.error e, m3) => (.error e, m3)
      | (.ok _, m3) =>
        match download_blocks m3 with
        | (.error e, m4) => (.error e, m4)
        | (.ok _, m4) =>
          (.ok (), { m4 with state := { m4.state with status := .Completed, progress := 100 } })

/-- `SyncManager::get_blocks_for_download` from src/network/sync.rs, as a
function of the pending queue: repeatedly pop the front, stopping once
`max_count` hashes are collected.  Note the source pops a hash before
checking the bound, so the hash popped on the terminating iteration is
dropped. -/
def get_blocks_for_download_loop (max_count : ℕ) :
    List (List ℕ) → List (List ℕ) → List (List ℕ) × List (List ℕ)
  | blocks, [] => (blocks, [])
  | blocks, block_hash :: rest =>
    if max_count ≤ blocks.length then
      (blocks, rest)
    else
      get_blocks_for_download_loop max_count (blocks ++ [block_hash]) rest

/-- `get_blocks_for_download`: returns the collected batch и the queue
left behind. -/
def get_blocks_for_download (m : SyncManager) (max_count : ℕ) :
    List (List ℕ) × List (List ℕ) :=
  get_blocks_for_download_loop max_count [] m.block_queue

end Sync

/-- C6: with queue `[a, b]` and `max_count = 1` the code returns `[a]`
but leaves the queue empty — hash `b` is popped on the terminating
iteration and silently discarded, so a queued hash is lost, contradicting
the spec's drain-without-loss design. -/
theorem C6_lost_hash_eval :
    Sync.get_blocks_for_download
        { state := { current_height := 0, target_height := 0, progress := 0,
                     status := .Idle, peers_connected := 0, blocks_downloaded := 0,
                     bytes_transferred := 0, start_time := 0, estimated_time_remaining := 0 }
          known_peers := [], active_peers := [], block_queue := [[0], [1]],
          requested_blocks := [] } 1 =
      ([[0]], []) ∧ ([] : List (List ℕ)) ≠ [[1]] := by
  constructor
  · rfl
  · decide

/-- C7: `start_sync` while not `Idle` fails `AlreadySyncing` without any
state change; from `Idle` with no valid known peer it fails `NoPeers`;
and every successful run ends with status `Completed` and progress 100. -/
theorem C7_start_sync_spec (m : Sync.SyncManager) :
    (m.state.status ≠ Sync.SyncStatus.Idle →
      Sync.start_sync m = (.error .AlreadySyncing, m)) ∧
    (m.state.status = Sync.SyncStatus.Idle →
     m.known_peers.filter Sync.PeerInfo.valid = [] →
      (Sync.start_sync m).1 = .error .NoPeers) ∧
    (∀ u m', Sync.start_sync m = (.ok u, m') →
      m'.state.status = Sync.SyncStatus.Completed ∧ m'.state.progress = 100) := by
  refine ⟨?_, ?_, ?_⟩
  · intro hne
    unfold Sync.start_sync
    rw [if_pos hne]
  · intro hidle hnone
    unfold Sync.start_sync
    rw [if_neg (by simp [hidle])]
    have hdisc : Sync.get_blocks_for_download_loop 0 [] [] = ([], []) := rfl
    unfold Sync.discover_peers Sync.get_best_peers
    simp only [hnone]
    rfl
  · intro u m' hok
    simp only [Sync.start_sync] at hok
    by_cases hidle : m.state.status = Sync.SyncStatus.Idle
    · rw [if_neg (by simp [hidle])] at hok
      split at hok
      · rw [Prod.mk.injEq] at hok
        exact absurd hok.1 (by simp)
      · split at hok
        · rw [Prod.mk.injEq] at hok
          exact absurd hok.1 (by simp)
        · split at hok
          · rw [Prod.mk.injEq] at hok
            exact absurd hok.1 (by simp)
          · rw [Prod.mk.injEq] at hok
            rw [← hok.2]
            exact ⟨rfl, rfl⟩
    · rw [if_pos hidle] at hok
      rw [Prod.mk.injEq] at hok
      exact absurd hok.1 (by simp)

/-- A concrete manager mid-download, used to exercise the busy branch. -/
def busyManager : Sync.SyncManager :=
  { state := { current_height := 0, target_height := 0, progress := 0,
               status := .DownloadingBlocks, peers_connected := 0, blocks_downloaded := 0,
               bytes_transferred := 0, start_time := 0, estimated_time_remaining := 0 }
    known_peers := [], active_peers := [], block_queue := [], requested_blocks := [] }

/-- A concrete idle manager with no known peers. -/
def lonelyManager : Sync.SyncManager :=
  { state := { current_height := 0, target_height := 0, progress := 0,
               status := .Idle, peers_connected := 0, blocks_downloaded := 0,
               bytes_transferred := 0, start_time := 0, estimated_time_remaining := 0 }
    known_peers := [], active_peers := [], block_queue := [], requested_blocks := [] }

/-- A concrete idle manager with one valid peer. -/
def readyManager : Sync.SyncManager :=
  { state := { current_height := 0, target_height := 0, progress := 0,
               status := .Idle, peers_connected := 0, blocks_downloaded := 0,
               bytes_transferred := 0, start_time := 0, estimated_time_remaining := 0 }
    known_peers := [⟨"p", [1], 9, "agent", 1, 0, 0⟩], active_peers := [],
    block_queue := [], requested_blocks := [] }

/-- Witness for C7_start_sync_spec: the three branches at concrete
managers (syncing manager, idle manager with no peers, idle manager with
one valid peer). -/
theorem C7_start_sync_spec_witness :
    Sync.start_sync busyManager = (.error .AlreadySyncing, busyManager) ∧
    (Sync.start_sync lonelyManager).1 = .error .NoPeers ∧
    ((Sync.start_sync readyManager).2.state.status = Sync.SyncStatus.Completed ∧
     (Sync.start_sync readyManager).2.state.progress = 100) := by
  refine ⟨(C7_start_sync_spec busyManager).1 (by decide),
    (C7_start_sync_spec lonelyManager).2.1 rfl (by decide), ?_⟩
  exact (C7_start_sync_spec readyManager).2.2 () _ (by rfl)

/-! ## Merkle tree — src/crypto/merkle.rs.
SHA-512 is an external primitive (the spec places cryptographic hash
implementations out of scope), so every definition is parameterized by
the digest function `sha`; `hash_leaf` and `hash_nodes` keep the
source's "leaf:"/"node:" domain-separation prefixes. -/

namespace Merkle

/-- `MerkleError` enum from src/crypto/merkle.rs. -/
inductive MerkleError where
  | EmptyTree
  | InvalidProof
  | InvalidIndex
deriving DecidableEq

/-- `MerkleProof` struct: leaf hash plus parallel sibling/side vectors. -/
structure MerkleProof where
  leaf_hash : List ℕ
  proof_hashes : List (List ℕ)
  proof_indices : List ℕ
deriving DecidableEq

/-- `MerkleTree` struct: hashed leaves, all levels, and the root. -/
structure MerkleTree where
  leaves : List (List ℕ)
  levels : List (List (List ℕ))
  root : List ℕ
deriving DecidableEq

/-- The ASCII bytes of `b"leaf:"`. -/
def leaf_tag : List ℕ := [108, 101, 97, 102, 58]

/-- The ASCII bytes of `b"node:"`. -/
def node_tag : List ℕ := [110, 111, 100, 101, 58]

/-- `MerkleTree::hash_leaf`: SHA-512 over `"leaf:" ++ data`. -/
def hash_leaf (sha : List ℕ → List ℕ) (data : List ℕ) : List ℕ :=
  sha (leaf_tag ++ data)

/-- `MerkleTree::hash_nodes`: SHA-512 over `"node:" ++ left ++ right`. -/
def hash_nodes (sha : List ℕ → List ℕ) (left right : List ℕ) : List ℕ :=
  sha (node_tag ++ left ++ right)

/-- One pairing pass of `MerkleTree::new`: `chunks(2)` with the last node
duplicated when the level has odd length. -/
def next_level (sha : List ℕ → List ℕ) : List (List ℕ) → List (List ℕ)
  | [] => []
  | [a] => [hash_nodes sha a a]
  | a :: b :: rest => hash_nodes sha a b :: next_level sha rest

/-- Each pass halves the level size, rounding up. -/
theorem next_level_length (sha : List ℕ → List ℕ) :
    ∀ l : List (List ℕ), (next_level sha l).length = (l.length + 1) / 2
  | [] => by simp [next_level]
  | [a] => by simp [next_level]
  | a :: b :: rest => by
    simp only [next_level, List.length_cons, next_level_length sha rest]
    omega

/-- The `while current_level.len() > 1` loop of `MerkleTree::new`,
returning the list of levels it pushes (the first entry is the input). -/
def build_levels (sha : List ℕ → List ℕ) (cur : List (List ℕ)) : List (List (List ℕ)) :=
  if h : cur.length ≤ 1 then [cur]
  else cur :: build_levels sha (next_level sha cur)
termination_by cur.length
decreasing_by
  rw [next_level_length]
  omega

/-- `build_levels` always produces at least one level. -/
theorem build_levels_ne_nil (sha : List ℕ → List ℕ) (cur : List (List ℕ)) :
    build_levels sha cur ≠ [] := by
  rw [build_levels]
  split <;> simp

/-- `MerkleTree::new` from src/crypto/merkle.rs: empty input fails
`EmptyTree`; otherwise hash the leaves, build the levels, and take the
single element of the final level as root. -/
def new (sha : List ℕ → List ℕ) (data : List (List ℕ)) : Except MerkleError MerkleTree :=
  if data.isEmpty then
    .error .EmptyTree
  else
    let leaves := data.map (hash_leaf sha)
    let levels := build_levels sha leaves
    .ok ⟨leaves, levels, (levels.getLastD []).headD []⟩

/-- One iteration of the proof-generation loop: the sibling pushed for
position `i` of `level` together with its side flag (1 = right sibling,
0 = left sibling, with the node itself reused when it has no right
sibling). -/
def proof_step (level : List (List ℕ)) (i : ℕ) : List ℕ × ℕ :=
  if i % 2 = 0 then
    if i + 1 < level.length then (level.getD (i + 1) [], 1)
    else (level.getD i [], 0)
  else
    (level.getD (i - 1) [], 0)

/-- The `for level in 0..(levels.len() - 1)` loop of `generate_proof`:
one step per level below the root, halving the index each time. -/
def proof_steps : List (List (List ℕ)) → ℕ → List (List ℕ × ℕ)
  | [], _ => []
  | [_], _ => []
  | cur :: next :: rest, i => proof_step cur i :: proof_steps (next :: rest) (i / 2)

/-- `MerkleTree::generate_proof` from src/crypto/merkle.rs. -/
def generate_proof (t : MerkleTree) (index : ℕ) : Except MerkleError MerkleProof :=
  if t.leaves.length ≤ index then
    .error .InvalidIndex
  else
    let steps := proof_steps t.levels index
    .ok ⟨t.leaves.getD index [], steps.map Prod.fst, steps.map Prod.snd⟩

/-- The verification fold of `MerkleTree::verify_proof`: hash the current
digest with each sibling on the recorded side. -/
def verify_fold (sha : List ℕ → List ℕ) : List ℕ → List (List ℕ × ℕ) → List ℕ
  | cur, [] => cur
  | cur, (sib, side) :: rest =>
    verify_fold sha (if side = 0 then hash_nodes sha sib cur else hash_nodes sha cur sib) rest

/-- `MerkleTree::verify_proof` from src/crypto/merkle.rs: recompute the
root from the leaf hash and compare.  The source indexes the two proof
vectors in lockstep; they are recombined here by position. -/
def verify_proof (sha : List ℕ → List ℕ) (proof : MerkleProof) (root : List ℕ) : Bool :=
  verify_fold sha proof.leaf_hash (proof.proof_hashes.zip proof.proof_indices) == root

/-- Zipping the projections of a pair list recovers the list. -/
theorem zip_proj_self : ∀ l : List (List ℕ × ℕ), (l.map Prod.fst).zip (l.map Prod.snd) = l
  | [] => rfl
  | (a, b) :: rest => by simp [zip_proj_self rest]

/-- Applying the verification step for position `i` to the recorded
sibling yields exactly the parent node computed by `next_level`. -/
theorem proof_step_correct (sha : List ℕ → List ℕ) :
    ∀ (l : List (List ℕ)) (i : ℕ), i < l.length →
      (if (proof_step l i).2 = 0
       then hash_nodes sha (proof_step l i).1 (l.getD i [])
       else hash_nodes sha (l.getD i []) (proof_step l i).1) =
        (next_level sha l).getD (i / 2) []
  | [], i => by
    intro h
    simp at h
  | [a], i => by
    intro h
    have hi0 : i = 0 := by simpa using Nat.lt_one_iff.mp (by simpa using h)
    subst hi0
    simp [proof_step, next_level]
  | a :: b :: rest, 0 => by
    intro _
    simp [proof_step, next_level]
  | a :: b :: rest, 1 => by
    intro _
    simp [proof_step, next_level]
  | a :: b :: rest, (j + 2) => by
    intro hlt
    have hjlt : j < rest.length := by
      simp only [List.length_cons] at hlt
      omega
    have hstep : proof_step (a :: b :: rest) (j + 2) = proof_step rest j := by
      unfold proof_step
      rw [Nat.add_mod_right]
      by_cases hj : j % 2 = 0
      · rw [if_pos hj, if_pos hj]
        simp only [List.length_cons]
        by_cases hj1 : j + 1 < rest.length
        · rw [if_pos (by omega), if_pos hj1]
          rw [show j + 2 + 1 = (j + 1) + 1 + 1 from rfl]
          rw [List.getD_cons_succ, List.getD_cons_succ]
        · rw [if_neg (by omega), if_neg hj1]
          rw [show j + 2 = j + 1 + 1 from rfl]
          rw [List.getD_cons_succ, List.getD_cons_succ]
      · rw [if_neg hj, if_neg hj]
        have hj1 : 1 ≤ j := by omega
        rw [show j + 2 - 1 = (j - 1) + 1 + 1 by omega]
        rw [List.getD_cons_succ, List.getD_cons_succ]
    have hget : (a :: b :: rest).getD (j + 2) [] = rest.getD j [] := by
      rw [show j + 2 = j + 1 + 1 from rfl]
      rw [List.getD_cons_succ, List.getD_cons_succ]
    have hdiv : (j + 2) / 2 = j / 2 + 1 := by omega
    rw [hstep, hget, hdiv]
    show _ = (hash_nodes sha a b :: next_level sha rest).getD (j / 2 + 1) []
    rw [List.getD_cons_succ]
    exact proof_step_correct sha rest j hjlt

/-- Recomputing bottom-up along the generated proof steps, starting from
any in-range leaf position, lands on the head of the final level. -/
theorem verify_fold_steps (sha : List ℕ → List ℕ) (cur : List (List ℕ))
    (hne : cur ≠ []) (i : ℕ) (hi : i < cur.length) :
    verify_fold sha (cur.getD i []) (proof_steps (build_levels sha cur) i) =
      ((build_levels sha cur).getLastD []).headD [] := by
  by_cases hlen : cur.length ≤ 1
  · rw [build_levels, dif_pos hlen]
    have hi0 : i = 0 := by omega
    subst hi0
    cases cur with
    | nil => exact absurd rfl hne
    | cons c t => simp [proof_steps, verify_fold, List.getLastD]
  · rw [build_levels, dif_neg hlen]
    have hnn : next_level sha cur ≠ [] := by
      intro hc
      have hl := next_level_length sha cur
      rw [hc] at hl
      simp at hl
      omega
    obtain ⟨nl0, nlrest, hbl⟩ : ∃ x xs, build_levels sha (next_level sha cur) = x :: xs := by
      cases hb : build_levels sha (next_level sha cur) with
      | nil => exact absurd hb (build_levels_ne_nil sha _)
      | cons x xs => exact ⟨x, xs, rfl⟩
    rw [hbl]
    rw [proof_steps]
    rw [verify_fold]
    rw [proof_step_correct sha cur i hi]
    have hrec := verify_fold_steps sha (next_level sha cur) hnn (i / 2)
      (by rw [next_level_length]; omega)
    rw [hbl] at hrec
    rw [hrec]
    congr 1
termination_by cur.length
decreasing_by
  rw [next_level_length]
  omega

end Merkle

/-- C9: for every hash primitive and every tree built from non-empty
data, `generate_proof` succeeds exactly on indices below the leaf count,
the resulting proof verifies against the tree's root, and out-of-range
indices fail with `InvalidIndex`. -/
theorem C9_merkle_proof_roundtrip (sha : List ℕ → List ℕ) (data : List (List ℕ))
    (hne : data ≠ []) (t : Merkle.MerkleTree) (hnew : Merkle.new sha data = .ok t) (i : ℕ) :
    (i < t.leaves.length →
      ∃ p, Merkle.generate_proof t i = .ok p ∧
        Merkle.verify_proof sha p t.root = true) ∧
    (t.leaves.length ≤ i →
      Merkle.generate_proof t i = .error .InvalidIndex) := by
  have hne' : ¬data.isEmpty := by
    cases data with
    | nil => exact absurd rfl hne
    | cons d ds => simp
  unfold Merkle.new at hnew
  rw [if_neg hne'] at hnew
  rw [Except.ok.injEq] at hnew
  constructor
  · intro hlt
    unfold Merkle.generate_proof
    rw [if_neg (by omega)]
    refine ⟨_, rfl, ?_⟩
    unfold Merkle.verify_proof
    rw [Merkle.zip_proj_self]
    rw [← hnew]
    have hmapne : data.map (Merkle.hash_leaf sha) ≠ [] := by
      cases data with
      | nil => exact absurd rfl hne
      | cons d ds => simp
    have hlt' : i < (data.map (Merkle.hash_leaf sha)).length := by
      rw [← hnew] at hlt
      simpa using hlt
    rw [Merkle.verify_fold_steps sha (data.map (Merkle.hash_leaf sha)) hmapne i hlt']
    exact beq_self_eq_true _
  · intro hge
    unfold Merkle.generate_proof
    rw [if_pos hge]

/-- A two-leaf sample tree over the identity digest, as `new` builds it. -/
def sampleTree : Merkle.MerkleTree :=
  { leaves := [[108, 101, 97, 102, 58, 1], [108, 101, 97, 102, 58, 2]]
    levels := [[[108, 101, 97, 102, 58, 1], [108, 101, 97, 102, 58, 2]],
               [[110, 111, 100, 101, 58, 108, 101, 97, 102, 58, 1,
                 108, 101, 97, 102, 58, 2]]]
    root := [110, 111, 100, 101, 58, 108, 101, 97, 102, 58, 1,
             108, 101, 97, 102, 58, 2] }

/-- `new` over the identity digest and data `[[1], [2]]` builds
`sampleTree`. -/
theorem sampleTree_new : Merkle.new (fun l => l) [[1], [2]] = .ok sampleTree := by
  have hb : Merkle.build_levels (fun l : List ℕ => l)
      [[108, 101, 97, 102, 58, 1], [108, 101, 97, 102, 58, 2]] = sampleTree.levels := by
    rw [Merkle.build_levels]
    rw [dif_neg (by simp)]
    rw [show Merkle.next_level (fun l : List ℕ => l)
        [[108, 101, 97, 102, 58, 1], [108, 101, 97, 102, 58, 2]] =
        [[110, 111, 100, 101, 58, 108, 101, 97, 102, 58, 1,
          108, 101, 97, 102, 58, 2]] from rfl]
    rw [Merkle.build_levels]
    rw [dif_pos (by simp)]
    rfl
  have hm : ([[1], [2]] : List (List ℕ)).map (Merkle.hash_leaf fun l => l) =
      [[108, 101, 97, 102, 58, 1], [108, 101, 97, 102, 58, 2]] := rfl
  rw [Merkle.new, if_neg (by simp)]
  simp only [hm, hb]
  rfl

/-- Witness for C9_merkle_proof_roundtrip: the sample tree at index 0
(in range, verifies) and index 2 (out of range, InvalidIndex). -/
theorem C9_merkle_proof_roundtrip_witness :
    (∃ p, Merkle.generate_proof sampleTree 0 = .ok p ∧
      Merkle.verify_proof (fun l => l) p sampleTree.root = true) ∧
    Merkle.generate_proof sampleTree 2 = .error .InvalidIndex :=
  ⟨(C9_merkle_proof_roundtrip (fun l => l) [[1], [2]] (by simp) sampleTree
      sampleTree_new 0).1 (by simp [sampleTree]),
   (C9_merkle_proof_roundtrip (fun l => l) [[1], [2]] (by simp) sampleTree
      sampleTree_new 2).2 (by simp [sampleTree])⟩

end BTPC2
